import Mathlib

/-!
Shallow embedding of the lnd chain-notifier dispatcher (package
bitcoindnotify, with the debug accessors of the btcdnotify and
neutrinonotify packages). Block hashes are opaque values compared
by equality; we model them as integers. Backend RPC lookups
(GetBlockHash, GetBlockHeader, GetBlockHeaderVerbose) are modelled
as total functions packaged in a Chain structure; the claims treated
here do not hinge on lookup failures except where noted.
-/

/-- Block epochs pair a height with the hash of the block at that
height, mirroring chainntnfs.BlockEpoch (Height int32, Hash pointer
to a 32-byte hash; we compare hashes by value, as the source does). -/
structure BlockEpoch where
  height : Int
  hash : Int
deriving DecidableEq, Repr

/-- The chain backend as consumed by the dispatcher: GetBlockHash by
height on the main chain, the PrevBlock field of GetBlockHeader, and
the Height field of GetBlockHeaderVerbose. -/
structure Chain where
  blockHashAtHeight : Int → Int
  prev : Int → Int
  heightOf : Int → Int

/-- The ascending enumeration lo, lo+1, ..., given its length. -/
def heightsFrom : Int → Nat → List Int
  | _, 0 => []
  | lo, Nat.succ n => lo :: heightsFrom (lo + 1) n

/-- Trace of the Go loop `for h := lo; h <= hi; h++`: the heights
lo..hi ascending, empty when lo > hi. -/
def heightRange (lo hi : Int) : List Int :=
  heightsFrom lo (hi + 1 - lo).toNat

/-- Checks that a list of heights ascends in steps of exactly one. -/
def consecutiveAsc : List Int → Bool
  | [] => true
  | [_] => true
  | a :: b :: rest => (b == a + 1) && consecutiveAsc (b :: rest)

/-- getCommonBlockAncestorHeight: walk both hashes back in lockstep
via the PrevBlock header field until they coincide, then return the
height of the common hash from a verbose header lookup. The Go loop
`for reorgHash != chainHash` carries no iteration bound; the fuel
argument only makes the recursion well-founded in Lean, and `none`
means the hashes did not meet within the given number of steps. -/
def getCommonBlockAncestorHeight (c : Chain) : Nat → Int → Int → Option Int
  | 0, _, _ => none
  | Nat.succ fuel, reorgHash, chainHash =>
    if reorgHash = chainHash then
      some (c.heightOf chainHash)
    else
      getCommonBlockAncestorHeight c fuel (c.prev reorgHash) (c.prev chainHash)

/-- k-fold application of the PrevBlock lookup. -/
def iterPrev (c : Chain) : Nat → Int → Int
  | 0, h => h
  | Nat.succ k, h => iterPrev c k (c.prev h)

/-- catchUpClientOnBlocks: dispatch the block notifications a freshly
registered epoch client missed, or nothing when it sent no best block.
Returns the list of BlockEpoch values enqueued (the source hands each
to notifyBlockEpochs, so they reach every registered client). The
source guards the hash comparison by `bestBlock.Hash != nil`; the model
always carries a hash. -/
def catchUpClientOnBlocks (c : Chain) (fuel : Nat) (notifierBest : BlockEpoch) :
    Option BlockEpoch → Option (List BlockEpoch)
  | none => some []
  | some bestBlock =>
    let hashAtBestHeight := c.blockHashAtHeight bestBlock.height
    let startingHeight? :=
      if hashAtBestHeight ≠ bestBlock.hash then
        (getCommonBlockAncestorHeight c fuel bestBlock.hash hashAtBestHeight).map (· + 1)
      else
        some (bestBlock.height + 1)
    startingHeight?.map fun startingHeight =>
      (heightRange startingHeight notifierBest.height).map fun h =>
        ⟨h, c.blockHashAtHeight h⟩

/-- The common-ancestor height of the client view and the current main
chain, as the registration catch-up path computes it: the client best
block itself when its hash still lies on the main chain, otherwise the
result of the lockstep walker. -/
def clientCommonAncestorHeight (c : Chain) (fuel : Nat) (bestBlock : BlockEpoch) :
    Option Int :=
  if c.blockHashAtHeight bestBlock.height = bestBlock.hash then
    some bestBlock.height
  else
    getCommonBlockAncestorHeight c fuel bestBlock.hash
      (c.blockHashAtHeight bestBlock.height)

/-- One registered epoch client: its id and the ordered list of epochs
enqueued to its ConcurrentQueue so far. -/
structure EpochClient where
  epochID : Nat
  delivered : List BlockEpoch
deriving DecidableEq, Repr

/-- notifyBlockEpochs: enqueue one epoch to every registered client. -/
def notifyBlockEpochs (clients : List EpochClient) (e : BlockEpoch) :
    List EpochClient :=
  clients.map fun cl => { cl with delivered := cl.delivered ++ [e] }

/-- The blockEpochRegistration case of the dispatcher: add the client
to the registry, then run catchUpClientOnBlocks, whose per-height
dispatch goes through notifyBlockEpochs and therefore reaches every
client in the registry. -/
def registerBlockEpoch (c : Chain) (fuel : Nat) (notifierBest : BlockEpoch)
    (clients : List EpochClient) (epochID : Nat)
    (clientBest : Option BlockEpoch) : Option (List EpochClient) :=
  let clients := clients ++ [⟨epochID, []⟩]
  (catchUpClientOnBlocks c fuel notifierBest clientBest).map fun epochs =>
    epochs.foldl notifyBlockEpochs clients

/-- k successive in-order BlockConnected events starting above `tip`:
each connects height tip+1 at the main-chain hash and fans out to all
epoch clients (the epoch part of handleBlockConnected). -/
def connectBlocksInOrder (c : Chain) :
    List EpochClient → Int → Nat → List EpochClient
  | st, _, 0 => st
  | st, tip, Nat.succ k =>
    connectBlocksInOrder c
      (notifyBlockEpochs st ⟨tip + 1, c.blockHashAtHeight (tip + 1)⟩)
      (tip + 1) k

/-- catchUpOnMissedBlocks: compute the sequence of intermediate
handleBlockConnected invocations (height, fetched hash) the dispatcher
performs when the backend reports a tip further than one past the
stored best block. The starting height is best+1, or common ancestor+1
when the main-chain hash at the stored best height no longer matches
the stored hash. -/
def catchUpOnMissedBlocks (c : Chain) (fuel : Nat) (best : BlockEpoch)
    (newHeight : Int) : Option (List (Int × Int)) :=
  let hashAtBestHeight := c.blockHashAtHeight best.height
  let startingHeight? :=
    if hashAtBestHeight ≠ best.hash then
      (getCommonBlockAncestorHeight c fuel best.hash hashAtBestHeight).map (· + 1)
    else
      some (best.height + 1)
  startingHeight?.map fun startingHeight =>
    (heightRange startingHeight (newHeight - 1)).map fun h =>
      (h, c.blockHashAtHeight h)

/-- The chain.BlockConnected case of notificationDispatcher, viewed as
the sequence of handleBlockConnected invocations it performs: the
missed-block replay (when the new height is not best+1) followed by
the connect of the new tip itself. `none` models the catch-up failing,
in which case the dispatcher logs and skips the event. -/
def blockConnectedReplay (c : Chain) (fuel : Nat) (best : BlockEpoch)
    (height hash : Int) : Option (List (Int × Int)) :=
  if height ≠ best.height + 1 then
    (catchUpOnMissedBlocks c fuel best height).map fun l => l ++ [(height, hash)]
  else
    some [(height, hash)]

/-- A spend detail as built by handleRelevantTx; SpendingTx itself is
identified by its hash. -/
structure SpendDetail where
  spentOutPoint : Nat
  spenderTxHash : Int
  spenderInputIndex : Nat
  spendingHeight : Int
deriving DecidableEq, Repr

/-- A chain.RelevantTx event: the spending transaction hash, the
previous outpoints of its inputs in order, and the height of the
containing block (`none` when the transaction was only seen in the
mempool, i.e. tx.Block == nil). -/
structure RelevantTx where
  txHash : Int
  inputs : List Nat
  blockHeight : Option Int
deriving DecidableEq, Repr

/-- The spend registry b.spendNotifications: outpoint to the spend ids
of the clients registered for it (Go: map[wire.OutPoint]map[uint64]). -/
abbrev SpendRegistry := List (Nat × List Nat)

/-- Go map read: the value at the first matching key. -/
def lookupOp : SpendRegistry → Nat → Option (List Nat)
  | [], _ => none
  | p :: rest, op => if p.1 = op then some p.2 else lookupOp rest op

/-- Go `delete(b.spendNotifications, prevOut)`: drop the entry keyed
by the outpoint (Go map keys are unique, so dropping every entry with
that key is the map delete). -/
def removeOp : SpendRegistry → Nat → SpendRegistry
  | [], _ => []
  | p :: rest, op =>
    if p.1 = op then removeOp rest op else p :: removeOp rest op

/-- Registration of a spend client, Go
`b.spendNotifications[op][msg.spendID] = msg` (creating the inner map
when absent). -/
def insertSpend : SpendRegistry → Nat → Nat → SpendRegistry
  | [], op, id => [(op, [id])]
  | p :: rest, op, id =>
    if p.1 = op then (p.1, p.2 ++ [id]) :: rest
    else p :: insertSpend rest op id

/-- One send performed by handleRelevantTx: the receiving spend id, the
detail sent on its channel, and the fact that the channel is closed
right after the send (the source closes unconditionally). -/
structure SpendSend where
  spendID : Nat
  detail : SpendDetail
  closedAfter : Bool
deriving DecidableEq, Repr

/-- The body of the input loop of handleRelevantTx for one input
(index, previous outpoint): when the previous outpoint has registered
clients, build the SpendDetail (spending height = containing block
height, or best height + 1 for a mempool transaction), send it to every
client of that outpoint, close their channels, and delete the outpoint
from the registry. -/
def relevantTxStep (tx : RelevantTx) (bestHeight : Int)
    (st : SpendRegistry × List SpendSend) (ip : Nat × Nat) :
    SpendRegistry × List SpendSend :=
  match lookupOp st.1 ip.2 with
  | none => st
  | some clients =>
    let d : SpendDetail :=
      { spentOutPoint := ip.2
        spenderTxHash := tx.txHash
        spenderInputIndex := ip.1
        spendingHeight :=
          match tx.blockHeight with
          | some h => h
          | none => bestHeight + 1 }
    (removeOp st.1 ip.2, st.2 ++ clients.map fun id => ⟨id, d, true⟩)

/-- handleRelevantTx: walk the inputs of the transaction in order,
running relevantTxStep on each. Returns the final registry and the
sends performed. -/
def handleRelevantTx (reg : SpendRegistry) (tx : RelevantTx)
    (bestHeight : Int) : SpendRegistry × List SpendSend :=
  tx.inputs.enum.foldl (relevantTxStep tx bestHeight) (reg, [])

/-- The dispatcher events that touch the spend registry: a spend
registration and a backend RelevantTx. -/
inductive SpendEvent where
  | register (op : Nat) (spendID : Nat)
  | relevantTx (tx : RelevantTx)
deriving DecidableEq, Repr

/-- Spend-facing dispatcher state: the registry plus the log of every
send performed so far. -/
structure SpendState where
  reg : SpendRegistry
  log : List SpendSend
deriving DecidableEq, Repr

/-- One dispatcher step on the spend registry. -/
def spendStep (bestHeight : Int) (s : SpendState) : SpendEvent → SpendState
  | .register op id => { s with reg := insertSpend s.reg op id }
  | .relevantTx tx =>
    let r := handleRelevantTx s.reg tx bestHeight
    { reg := r.1, log := s.log ++ r.2 }

/-- A run of the dispatcher over spend events, from an empty registry. -/
def runSpend (bestHeight : Int) (evs : List SpendEvent) : SpendState :=
  evs.foldl (spendStep bestHeight) ⟨[], []⟩

/-- The spend ids carried by register events, in order. The source
draws them from an atomic counter, so they are pairwise distinct. -/
def registerIDs : List SpendEvent → List Nat
  | [] => []
  | .register _ id :: rest => id :: registerIDs rest
  | .relevantTx _ :: rest => registerIDs rest

/-- All spend ids present in the registry. -/
def regIDs (reg : SpendRegistry) : List Nat :=
  (reg.map Prod.snd).flatten

/-- The spendCancel case of the dispatcher. The source only checks that
the outpoint has an entry; it then dereferences
`outPointClients[msg.spendID]` unconditionally, which is the nil
pointer when the id is not in the inner map, so `close(nil.spendChan)`
panics. `none` models that panic; otherwise the id is deleted from the
inner map (the outer entry stays, possibly empty). -/
def spendCancelHandler (reg : SpendRegistry) (op spendID : Nat) :
    Option SpendRegistry :=
  match lookupOp reg op with
  | none => some reg
  | some clients =>
    if spendID ∈ clients then
      some (reg.map fun p => if p.1 = op then (p.1, p.2.erase spendID) else p)
    else
      none

/-- The epochCancel case of the dispatcher. The source reads
`reg := b.blockEpochClients[msg.epochID]` and immediately calls
`reg.epochQueue.Stop()`, which dereferences nil when the id is unknown
(never registered, already cancelled): `none` models that panic.
Otherwise the registration is removed from the registry. -/
def epochCancelHandler (clients : List EpochClient) (epochID : Nat) :
    Option (List EpochClient) :=
  if clients.any fun cl => cl.epochID == epochID then
    some (clients.filter fun cl => cl.epochID != epochID)
  else
    none

/-- The outcome a Register* caller observes. The source uses two
distinct shutdown error values (ErrChainNotifierShuttingDown for spend
and confirmation registrations, a fresh errors.New for epoch ones) with
the same meaning; both are modelled by `shutdown`. -/
inductive RegisterResult where
  | handle
  | shutdown
  | backendErr (e : Nat)
deriving DecidableEq, Repr

/-- RegisterSpendNtfn. After the quit select (shutdown when stopped,
since the dispatcher no longer receives on the registry channel) the
source performs backend calls whose errors it returns to the caller:
NotifySpent, then GetTxOut; when the output is already spent it runs a
historical lookup and block-by-block rescan
(GetRawTransactionVerbose / GetBlockHash / GetBlockHeight /
GetBestBlock / GetBlock) condensed here into one fallible step, since
only its error-or-success outcome reaches the caller. -/
def registerSpendNtfn (stopped : Bool) (notifySpentErr : Option Nat)
    (getTxOutRes : Except Nat Bool) (historicalRescanErr : Option Nat) :
    RegisterResult :=
  if stopped then .shutdown
  else
    match notifySpentErr with
    | some e => .backendErr e
    | none =>
      match getTxOutRes with
      | .error e => .backendErr e
      | .ok true => .handle
      | .ok false =>
        match historicalRescanErr with
        | some e => .backendErr e
        | none => .handle

/-- RegisterConfirmationsNtfn: rendezvous with the dispatcher or fail
with the shutdown error; backend failures during historical lookup
happen inside the dispatcher and are only logged. -/
def registerConfirmationsNtfn (stopped : Bool) : RegisterResult :=
  if stopped then .shutdown else .handle

/-- RegisterBlockEpochNtfn: rendezvous with the dispatcher or fail with
its shutdown error. -/
def registerBlockEpochNtfn (stopped : Bool) : RegisterResult :=
  if stopped then .shutdown else .handle

/-- Dispatcher state relevant to a BlockConnected event: the stored
best block, the heights already handed to TxConfNotifier.ConnectTip,
and the epoch clients. -/
structure DispatcherState where
  bestBlock : BlockEpoch
  confConnectedHeights : List Int
  epochClients : List EpochClient
deriving DecidableEq, Repr

/-- handleBlockConnected with its two failure points surfaced as
inputs: GetBlock and TxConfNotifier.ConnectTip. On success ConnectTip
records the height and the epoch fan-out runs; on failure the state is
untouched and the error returned. -/
def handleBlockConnectedF (st : DispatcherState) (height hash : Int)
    (getBlockErr connectTipErr : Option Nat) :
    DispatcherState × Option Nat :=
  match getBlockErr with
  | some e => (st, some e)
  | none =>
    match connectTipErr with
    | some e => (st, some e)
    | none =>
      ({ st with
          confConnectedHeights := st.confConnectedHeights ++ [height]
          epochClients := notifyBlockEpochs st.epochClients ⟨height, hash⟩ },
        none)

/-- The in-order part of the BlockConnected dispatcher case: bestBlock
is assigned the new (height, hash) first, then handleBlockConnected
runs; its error, if any, is only logged. -/
def blockConnectedUpdate (st : DispatcherState) (height hash : Int)
    (getBlockErr connectTipErr : Option Nat) :
    DispatcherState × Option Nat :=
  handleBlockConnectedF { st with bestBlock := ⟨height, hash⟩ }
    height hash getBlockErr connectTipErr

/-- NeutrinoNotifier.GetBestHeight returns the bestHeight field. -/
def NeutrinoNotifier.GetBestHeight (bestHeight : Nat) : Nat :=
  bestHeight

/-- BitcoindNotifier.GetBestHeight ignores the stored best block and
returns the literal 0. -/
def BitcoindNotifier.GetBestHeight (_bestBlock : BlockEpoch) : Nat :=
  0

/-- BtcdNotifier.GetBestHeight ignores the stored best block and
returns the literal 0. -/
def BtcdNotifier.GetBestHeight (_bestBlock : BlockEpoch) : Nat :=
  0

/-! Helper lemmas about height enumerations. -/

theorem heightsFrom_length (n : Nat) : ∀ lo : Int, (heightsFrom lo n).length = n := by
  induction n with
  | zero => intro lo; rfl
  | succ m ih => intro lo; simp [heightsFrom, ih]

theorem heightRange_length (lo hi : Int) :
    (heightRange lo hi).length = (hi + 1 - lo).toNat :=
  heightsFrom_length _ _

theorem heightsFrom_consecutiveAsc (n : Nat) :
    ∀ lo : Int, consecutiveAsc (heightsFrom lo n) = true := by
  induction n with
  | zero => intro lo; rfl
  | succ m ih =>
    intro lo
    cases m with
    | zero => rfl
    | succ k =>
      have h := ih (lo + 1)
      simp only [heightsFrom] at h ⊢
      simp only [consecutiveAsc, h, Bool.and_true, beq_self_eq_true]

theorem heightsFrom_add (m : Nat) :
    ∀ (lo : Int) (n : Nat),
      heightsFrom lo (m + n) = heightsFrom lo m ++ heightsFrom (lo + (m : Int)) n := by
  induction m with
  | zero => intro lo n; simp [heightsFrom]
  | succ k ih =>
    intro lo n
    have hrw : Nat.succ k + n = Nat.succ (k + n) := Nat.succ_add k n
    rw [hrw]
    simp only [heightsFrom, List.cons_append]
    rw [ih (lo + 1) n]
    have : lo + 1 + (k : Int) = lo + ((k : Int) + 1) := by ring
    rw [this]
    norm_num

theorem heightRange_append_heightsFrom (lo mid : Int) (k : Nat) (h : lo ≤ mid + 1) :
    heightRange lo mid ++ heightsFrom (mid + 1) k = heightRange lo (mid + (k : Int)) := by
  unfold heightRange
  have h1 : (mid + (k : Int) + 1 - lo).toNat = (mid + 1 - lo).toNat + k := by omega
  rw [h1, heightsFrom_add]
  congr 2
  omega

theorem heightRange_eq_nil (lo hi : Int) (h : hi < lo) : heightRange lo hi = [] := by
  unfold heightRange
  have : (hi + 1 - lo).toNat = 0 := by omega
  rw [this]
  rfl

theorem consecutiveAsc_heightRange_snoc (lo hi : Int) :
    consecutiveAsc (heightRange lo hi ++ [hi + 1]) = true := by
  by_cases h : lo ≤ hi + 1
  · have h2 : heightRange lo hi ++ [hi + 1] = heightRange lo (hi + (1 : Nat)) := by
      rw [← heightRange_append_heightsFrom lo hi 1 h]
      rfl
    rw [h2]
    exact heightsFrom_consecutiveAsc _ _
  · rw [heightRange_eq_nil lo hi (by omega)]
    rfl

theorem consecutiveAsc_heightRange (lo hi : Int) :
    consecutiveAsc (heightRange lo hi) = true :=
  heightsFrom_consecutiveAsc _ _

/-! Helper lemmas about the epoch fan-out. -/

theorem foldl_notifyBlockEpochs (epochs : List BlockEpoch) :
    ∀ cls : List EpochClient,
      epochs.foldl notifyBlockEpochs cls =
        cls.map fun cl => { cl with delivered := cl.delivered ++ epochs } := by
  induction epochs with
  | nil =>
    intro cls
    simp only [List.foldl_nil, List.append_nil]
    exact (List.map_id cls).symm
  | cons e rest ih =>
    intro cls
    simp only [List.foldl_cons]
    rw [ih]
    simp [notifyBlockEpochs, List.map_map, Function.comp]

theorem connectBlocksInOrder_delivered (c : Chain) (k : Nat) :
    ∀ (id : Nat) (l : List BlockEpoch) (t : Int),
      connectBlocksInOrder c [⟨id, l⟩] t k =
        [⟨id, l ++ (heightsFrom (t + 1) k).map fun h => ⟨h, c.blockHashAtHeight h⟩⟩] := by
  induction k with
  | zero => intro id l t; simp [connectBlocksInOrder, heightsFrom]
  | succ m ih =>
    intro id l t
    simp only [connectBlocksInOrder, notifyBlockEpochs, List.map]
    rw [ih]
    simp [heightsFrom, List.append_assoc]

/-- Claim C1: for an epoch registration carrying a best block B,
accepted while the notifier is at tip T, the catch-up enqueues to the
new subscriber exactly one BlockEpoch per height from the common
ancestor of B and the main chain plus one through T.height inclusive,
in ascending order with no repeats, hence exactly
(T.height - ancestor).toNat notifications; a registration without a
best block enqueues nothing at registration time. -/
theorem catchup_client_completeness (c : Chain) (fuel : Nat) (T B : BlockEpoch)
    (ca : Int) (hca : clientCommonAncestorHeight c fuel B = some ca) :
    (∃ l, catchUpClientOnBlocks c fuel T (some B) = some l ∧
      (l.map fun e => e.height) = heightRange (ca + 1) T.height ∧
      l.length = (T.height - ca).toNat ∧
      consecutiveAsc (l.map fun e => e.height) = true) ∧
    catchUpClientOnBlocks c fuel T none = some [] := by
  constructor
  · have hstart : catchUpClientOnBlocks c fuel T (some B) =
        some ((heightRange (ca + 1) T.height).map fun h =>
          ⟨h, c.blockHashAtHeight h⟩) := by
      unfold clientCommonAncestorHeight at hca
      unfold catchUpClientOnBlocks
      by_cases hh : c.blockHashAtHeight B.height = B.hash
      · rw [if_pos hh] at hca
        have hcaeq : ca = B.height := by
          have := Option.some.inj hca
          omega
        subst hcaeq
        simp [hh]
      · rw [if_neg hh] at hca
        simp [hh, hca]
    refine ⟨_, hstart, ?_, ?_, ?_⟩
    · rw [List.map_map]
      exact List.map_id' _
    · rw [List.length_map, heightRange_length]
      congr 1
      omega
    · rw [List.map_map]
      have hmid : List.map ((fun e => e.height) ∘ fun h =>
          (⟨h, c.blockHashAtHeight h⟩ : BlockEpoch)) (heightRange (ca + 1) T.height) =
          heightRange (ca + 1) T.height := List.map_id' _
      rw [hmid]
      exact consecutiveAsc_heightRange _ _
  · rfl

/-- A main chain whose hash at every height is the height itself. -/
def cMain : Chain :=
  { blockHashAtHeight := fun h => h
    prev := fun h => h - 1
    heightOf := fun h => h }

/-- Witness for catchup_client_completeness at a concrete chain: a
client at (8, 8) registering while the tip is (10, 10) is caught up
with exactly heights 9 and 10. -/
theorem catchup_client_completeness_witness :
    clientCommonAncestorHeight cMain 1 ⟨8, 8⟩ = some 8 ∧
    ((∃ l, catchUpClientOnBlocks cMain 1 ⟨10, 10⟩ (some ⟨8, 8⟩) = some l ∧
      (l.map fun e => e.height) = heightRange (8 + 1) (10 : Int) ∧
      l.length = ((10 : Int) - 8).toNat ∧
      consecutiveAsc (l.map fun e => e.height) = true) ∧
    catchUpClientOnBlocks cMain 1 ⟨10, 10⟩ none = some []) :=
  ⟨by decide, by
    have h := catchup_client_completeness cMain 1 ⟨10, 10⟩ ⟨8, 8⟩ 8 (by decide)
    exact h⟩

/-- Two successive epoch registrations with stale best block (8, 8)
while the notifier tip is (10, 10): the catch-up of the second client
is broadcast through notifyBlockEpochs, so the first client is
enqueued heights 9, 10 a second time. -/
def c2Run : Option (List EpochClient) :=
  (registerBlockEpoch cMain 1 ⟨10, 10⟩ [] 1 (some ⟨8, 8⟩)).bind fun cls =>
    registerBlockEpoch cMain 1 ⟨10, 10⟩ cls 2 (some ⟨8, 8⟩)

/-- Claim C2 counterexample: after the second registration, subscriber
one has been enqueued heights 9, 10, 9, 10 — a descending step from 10
back to 9 — because catchUpClientOnBlocks dispatches through
notifyBlockEpochs, which enqueues to every registered client, not only
the newly registered one. -/
theorem epoch_monotonicity_counterexample :
    c2Run = some [⟨1, [⟨9, 9⟩, ⟨10, 10⟩, ⟨9, 9⟩, ⟨10, 10⟩]⟩,
                  ⟨2, [⟨9, 9⟩, ⟨10, 10⟩]⟩] ∧
    consecutiveAsc [9, 10, 9, 10] = false := by decide

/-- Claim C2 as amended: a subscriber observes consecutive ascending
heights from the height it was caught up to, provided no reorg occurs
(its best block is still on the main chain and every later connect is
in order at tip + 1) and no other client registers catch-up after it. -/
theorem epoch_heights_consecutive_no_reorg (c : Chain) (fuel : Nat)
    (T B : BlockEpoch) (k : Nat) (id : Nat)
    (hchain : c.blockHashAtHeight B.height = B.hash)
    (hBT : B.height ≤ T.height) :
    ∃ cls, registerBlockEpoch c fuel T [] id (some B) = some cls ∧
      ∀ cl ∈ connectBlocksInOrder c cls T.height k,
        (cl.delivered.map fun e => e.height) =
          heightRange (B.height + 1) (T.height + (k : Int)) ∧
        consecutiveAsc (cl.delivered.map fun e => e.height) = true := by
  have hreg : registerBlockEpoch c fuel T [] id (some B) =
      some [⟨id, (heightRange (B.height + 1) T.height).map fun h =>
        ⟨h, c.blockHashAtHeight h⟩⟩] := by
    have hc : catchUpClientOnBlocks c fuel T (some B) =
        some ((heightRange (B.height + 1) T.height).map fun h =>
          ⟨h, c.blockHashAtHeight h⟩) := by
      unfold catchUpClientOnBlocks
      simp [hchain]
    unfold registerBlockEpoch
    rw [hc]
    simp only [Option.map_some', List.nil_append, Option.some.injEq]
    rw [foldl_notifyBlockEpochs]
    simp
  refine ⟨_, hreg, ?_⟩
  intro cl hcl
  rw [connectBlocksInOrder_delivered] at hcl
  simp only [List.mem_singleton] at hcl
  subst hcl
  have hjoin : ((heightRange (B.height + 1) T.height).map fun h =>
        (⟨h, c.blockHashAtHeight h⟩ : BlockEpoch)) ++
      ((heightsFrom (T.height + 1) k).map fun h =>
        (⟨h, c.blockHashAtHeight h⟩ : BlockEpoch)) =
      (heightRange (B.height + 1) (T.height + (k : Int))).map fun h =>
        (⟨h, c.blockHashAtHeight h⟩ : BlockEpoch) := by
    rw [← List.map_append]
    rw [heightRange_append_heightsFrom (B.height + 1) T.height k (by omega)]
  simp only [hjoin]
  constructor
  · rw [List.map_map]
    exact List.map_id' _
  · rw [List.map_map]
    have hmid : List.map ((fun e => e.height) ∘ fun h =>
        (⟨h, c.blockHashAtHeight h⟩ : BlockEpoch))
        (heightRange (B.height + 1) (T.height + (k : Int))) =
        heightRange (B.height + 1) (T.height + (k : Int)) := List.map_id' _
    rw [hmid]
    exact consecutiveAsc_heightRange _ _

/-- Witness for epoch_heights_consecutive_no_reorg: client at (8, 8),
tip (10, 10), two in-order connects. -/
theorem epoch_heights_consecutive_no_reorg_witness :
    cMain.blockHashAtHeight (8 : Int) = (8 : Int) ∧
    (8 : Int) ≤ (10 : Int) ∧
    (∃ cls, registerBlockEpoch cMain 1 ⟨10, 10⟩ [] 1 (some ⟨8, 8⟩) = some cls ∧
      ∀ cl ∈ connectBlocksInOrder cMain cls 10 2,
        (cl.delivered.map fun e => e.height) =
          heightRange ((8 : Int) + 1) ((10 : Int) + ((2 : Nat) : Int)) ∧
        consecutiveAsc (cl.delivered.map fun e => e.height) = true) :=
  ⟨by decide, by decide,
    epoch_heights_consecutive_no_reorg cMain 1 ⟨10, 10⟩ ⟨8, 8⟩ 2 1
      (by decide) (by decide)⟩

/-- Two forks that stay disjoint for 150 backward steps: hashes
1000..1149 on the reorged fork and 2000..2149 on the main fork, with
prev stepping upward inside each range and both fork tails parented on
the common hash 0, whose verbose-header height is 50. -/
def deepForkChain : Chain :=
  { blockHashAtHeight := fun h => h
    prev := fun h => if h = 1149 ∨ h = 2149 then 0 else h + 1
    heightOf := fun _ => 50 }

/-- Claim C3 counterexample: starting from hashes 1000 and 2000 the
lockstep walk needs 150 prev steps to meet (with only 100 steps of
fuel it has not met), yet the source returns the common height 50
instead of any ReorgTooDeep error: the Go loop carries no
reorg-safety-depth bound at all (reorgSafetyLimit is used only to
construct the TxConfNotifier). -/
theorem common_ancestor_unbounded_counterexample :
    getCommonBlockAncestorHeight deepForkChain 101 1000 2000 = none ∧
    getCommonBlockAncestorHeight deepForkChain 151 1000 2000 = some 50 := by
  decide

/-- Claim C3 as amended: the walker repeatedly replaces both hashes by
their prev in lockstep until they are equal and returns the height of
the common hash via the verbose header lookup; the walk is not bounded
by reorg_safety_depth and returns no ReorgTooDeep error — whenever the
hashes first meet after k steps, any fuel beyond k yields the common
height. -/
theorem common_ancestor_walker_meets (c : Chain) (k : Nat) :
    ∀ (a b : Int) (fuel : Nat),
      iterPrev c k a = iterPrev c k b →
      (∀ j, j < k → iterPrev c j a ≠ iterPrev c j b) →
      k < fuel →
      getCommonBlockAncestorHeight c fuel a b =
        some (c.heightOf (iterPrev c k b)) := by
  induction k with
  | zero =>
    intro a b fuel hmeet _ hfuel
    cases fuel with
    | zero => omega
    | succ f =>
      simp only [iterPrev] at hmeet
      simp [getCommonBlockAncestorHeight, hmeet, iterPrev]
  | succ m ih =>
    intro a b fuel hmeet hfirst hfuel
    cases fuel with
    | zero => omega
    | succ f =>
      have hne : a ≠ b := by
        have h0 := hfirst 0 (Nat.succ_pos m)
        simpa [iterPrev] using h0
      simp only [getCommonBlockAncestorHeight, if_neg hne]
      have hmeet2 : iterPrev c m (c.prev a) = iterPrev c m (c.prev b) := hmeet
      have hfirst2 : ∀ j, j < m →
          iterPrev c j (c.prev a) ≠ iterPrev c j (c.prev b) := by
        intro j hj
        exact hfirst (j + 1) (Nat.succ_lt_succ hj)
      have hlt : m < f := Nat.lt_of_succ_lt_succ hfuel
      exact ih (c.prev a) (c.prev b) f hmeet2 hfirst2 hlt

/-- A chain on which every hash has parent 0. -/
def cZero : Chain :=
  { blockHashAtHeight := fun h => h
    prev := fun _ => 0
    heightOf := fun h => h }

/-- Witness for common_ancestor_walker_meets: hashes 1 and 2 meet at
hash 0 after one step, and the walker returns its height. -/
theorem common_ancestor_walker_meets_witness :
    iterPrev cZero 1 1 = iterPrev cZero 1 2 ∧
    (∀ j, j < 1 → iterPrev cZero j 1 ≠ iterPrev cZero j 2) ∧
    1 < 2 ∧
    getCommonBlockAncestorHeight cZero 2 1 2 =
      some (cZero.heightOf (iterPrev cZero 1 2)) :=
  ⟨by decide, by decide, by decide,
    common_ancestor_walker_meets cZero 1 1 2 2 (by decide) (by decide)
      (by decide)⟩

/-- Claim C4: on BlockConnected(height, hash) with height not equal to
best + 1, the dispatcher (a) replays handleBlockConnected for every
intermediate height best+1 .. height-1 in ascending order with the
fetched hash when the backend hash at the stored best height matches
the stored hash, (b) otherwise replays from the walker common ancestor
plus one, and in both cases finally connects (height, hash); the
heights of the whole invocation sequence ascend consecutively. -/
theorem missed_block_catchup_replay (c : Chain) (fuel : Nat)
    (best : BlockEpoch) (height hash : Int)
    (hne : height ≠ best.height + 1) :
    (c.blockHashAtHeight best.height = best.hash →
      blockConnectedReplay c fuel best height hash =
        some (((heightRange (best.height + 1) (height - 1)).map fun h =>
          (h, c.blockHashAtHeight h)) ++ [(height, hash)])) ∧
    (∀ ca, c.blockHashAtHeight best.height ≠ best.hash →
      getCommonBlockAncestorHeight c fuel best.hash
          (c.blockHashAtHeight best.height) = some ca →
      blockConnectedReplay c fuel best height hash =
        some (((heightRange (ca + 1) (height - 1)).map fun h =>
          (h, c.blockHashAtHeight h)) ++ [(height, hash)])) ∧
    (∀ l, blockConnectedReplay c fuel best height hash = some l →
      consecutiveAsc (l.map Prod.fst) = true) := by
  have hasc : ∀ s : Int,
      consecutiveAsc ((((heightRange s (height - 1)).map fun h =>
        (h, c.blockHashAtHeight h)) ++ [((height : Int), hash)]).map Prod.fst) =
        true := by
    intro s
    rw [List.map_append, List.map_map]
    have h1 : List.map (Prod.fst ∘ fun h => (h, c.blockHashAtHeight h))
        (heightRange s (height - 1)) = heightRange s (height - 1) :=
      List.map_id' _
    rw [h1]
    have h2 : ([((height : Int), hash)].map Prod.fst) = [height - 1 + 1] := by
      have h3 : height - 1 + 1 = height := by omega
      rw [h3]
      rfl
    rw [h2]
    exact consecutiveAsc_heightRange_snoc _ _
  have hmatch : c.blockHashAtHeight best.height = best.hash →
      blockConnectedReplay c fuel best height hash =
        some (((heightRange (best.height + 1) (height - 1)).map fun h =>
          (h, c.blockHashAtHeight h)) ++ [(height, hash)]) := by
    intro hh
    unfold blockConnectedReplay catchUpOnMissedBlocks
    rw [if_pos hne]
    simp [hh]
  have hdiverge : ∀ ca, c.blockHashAtHeight best.height ≠ best.hash →
      getCommonBlockAncestorHeight c fuel best.hash
          (c.blockHashAtHeight best.height) = some ca →
      blockConnectedReplay c fuel best height hash =
        some (((heightRange (ca + 1) (height - 1)).map fun h =>
          (h, c.blockHashAtHeight h)) ++ [(height, hash)]) := by
    intro ca hh hca
    unfold blockConnectedReplay catchUpOnMissedBlocks
    rw [if_pos hne]
    simp [hh, hca]
  refine ⟨hmatch, hdiverge, ?_⟩
  intro l hl
  by_cases hh : c.blockHashAtHeight best.height = best.hash
  · rw [hmatch hh] at hl
    have := Option.some.inj hl
    subst this
    exact hasc _
  · cases hca : getCommonBlockAncestorHeight c fuel best.hash
        (c.blockHashAtHeight best.height) with
    | none =>
      rw [show blockConnectedReplay c fuel best height hash = none from by
        unfold blockConnectedReplay catchUpOnMissedBlocks
        rw [if_pos hne]
        simp [hh, hca]] at hl
      cases hl
    | some ca =>
      rw [hdiverge ca hh hca] at hl
      have := Option.some.inj hl
      subst this
      exact hasc _

/-- Witness for missed_block_catchup_replay: stored best (5, 5) on the
main chain, connect of height 8 replays 6, 7, then 8. -/
theorem missed_block_catchup_replay_witness :
    ((8 : Int) ≠ (5 : Int) + 1) ∧
    ((cMain.blockHashAtHeight (5 : Int) = (5 : Int) →
      blockConnectedReplay cMain 1 ⟨5, 5⟩ 8 8 =
        some (((heightRange ((5 : Int) + 1) ((8 : Int) - 1)).map fun h =>
          (h, cMain.blockHashAtHeight h)) ++ [((8 : Int), (8 : Int))])) ∧
    (∀ ca, cMain.blockHashAtHeight (5 : Int) ≠ (5 : Int) →
      getCommonBlockAncestorHeight cMain 1 (5 : Int)
          (cMain.blockHashAtHeight (5 : Int)) = some ca →
      blockConnectedReplay cMain 1 ⟨5, 5⟩ 8 8 =
        some (((heightRange (ca + 1) ((8 : Int) - 1)).map fun h =>
          (h, cMain.blockHashAtHeight h)) ++ [((8 : Int), (8 : Int))])) ∧
    (∀ l, blockConnectedReplay cMain 1 ⟨5, 5⟩ 8 8 = some l →
      consecutiveAsc (l.map Prod.fst) = true)) :=
  ⟨by decide, missed_block_catchup_replay cMain 1 ⟨5, 5⟩ 8 8 (by decide)⟩

/-! Helper lemmas for the spend registry. -/

/-- The spend ids of a list of sends, in order. -/
def sendIDs (l : List SpendSend) : List Nat :=
  l.map fun s => s.spendID

theorem regIDs_cons (p : Nat × List Nat) (rest : SpendRegistry) :
    regIDs (p :: rest) = p.2 ++ regIDs rest := by
  simp [regIDs]

theorem sendIDs_append (l1 l2 : List SpendSend) :
    sendIDs (l1 ++ l2) = sendIDs l1 ++ sendIDs l2 := by
  simp [sendIDs]

theorem sendIDs_of_clients (clients : List Nat) (d : SpendDetail) :
    sendIDs (clients.map fun id => (⟨id, d, true⟩ : SpendSend)) = clients := by
  rw [sendIDs, List.map_map]
  exact List.map_id' _

theorem count_regIDs_removeOp (op x : Nat) :
    ∀ reg : SpendRegistry,
      (regIDs (removeOp reg op)).count x ≤ (regIDs reg).count x := by
  intro reg
  induction reg with
  | nil => simp [removeOp]
  | cons p rest ih =>
    by_cases h : p.1 = op
    · simp only [removeOp, if_pos h, regIDs_cons, List.count_append]
      omega
    · simp only [removeOp, if_neg h, regIDs_cons, List.count_append]
      omega

theorem count_removeOp_add_clients (op x : Nat) (clients : List Nat) :
    ∀ reg : SpendRegistry, lookupOp reg op = some clients →
      (regIDs (removeOp reg op)).count x + clients.count x ≤
        (regIDs reg).count x := by
  intro reg
  induction reg with
  | nil => intro h; simp [lookupOp] at h
  | cons p rest ih =>
    intro h
    by_cases hp : p.1 = op
    · rw [lookupOp, if_pos hp] at h
      have hcl : clients = p.2 := (Option.some.inj h).symm
      subst hcl
      simp only [removeOp, if_pos hp, regIDs_cons, List.count_append]
      have := count_regIDs_removeOp op x rest
      omega
    · rw [lookupOp, if_neg hp] at h
      simp only [removeOp, if_neg hp, regIDs_cons, List.count_append]
      have := ih h
      omega

theorem count_singleton_ite (id x : Nat) :
    ([id] : List Nat).count x = (if id = x then 1 else 0) := by
  by_cases h : id = x
  · subst h; simp
  · rw [if_neg h]
    exact List.count_eq_zero.mpr (by simpa using Ne.symm h)

theorem count_regIDs_insertSpend (op id x : Nat) :
    ∀ reg : SpendRegistry,
      (regIDs (insertSpend reg op id)).count x =
        (regIDs reg).count x + (if id = x then 1 else 0) := by
  intro reg
  induction reg with
  | nil =>
    have hreg : regIDs (insertSpend [] op id) = [id] := by
      simp [insertSpend, regIDs]
    have hnil : regIDs ([] : SpendRegistry) = [] := by
      simp [regIDs]
    rw [hreg, hnil, count_singleton_ite]
    simp
  | cons p rest ih =>
    by_cases hp : p.1 = op
    · simp only [insertSpend, if_pos hp, regIDs_cons, List.count_append,
        count_singleton_ite]
      omega
    · simp only [insertSpend, if_neg hp, regIDs_cons, List.count_append, ih]
      omega

theorem relevantTxStep_count (tx : RelevantTx) (bestHeight : Int)
    (ip : Nat × Nat) (st : SpendRegistry × List SpendSend) (x : Nat) :
    (sendIDs (relevantTxStep tx bestHeight st ip).2).count x +
      (regIDs (relevantTxStep tx bestHeight st ip).1).count x ≤
    (sendIDs st.2).count x + (regIDs st.1).count x := by
  unfold relevantTxStep
  cases hl : lookupOp st.1 ip.2 with
  | none => exact Nat.le_refl _
  | some clients =>
    simp only [sendIDs_append, List.count_append, sendIDs_of_clients]
    have := count_removeOp_add_clients ip.2 x clients st.1 hl
    omega

theorem relevantTxFold_count (tx : RelevantTx) (bestHeight : Int) (x : Nat) :
    ∀ (inputs : List (Nat × Nat)) (st : SpendRegistry × List SpendSend),
      (sendIDs (inputs.foldl (relevantTxStep tx bestHeight) st).2).count x +
        (regIDs (inputs.foldl (relevantTxStep tx bestHeight) st).1).count x ≤
      (sendIDs st.2).count x + (regIDs st.1).count x := by
  intro inputs
  induction inputs with
  | nil => intro st; exact Nat.le_refl _
  | cons ip rest ih =>
    intro st
    calc (sendIDs ((ip :: rest).foldl (relevantTxStep tx bestHeight) st).2).count x +
          (regIDs ((ip :: rest).foldl (relevantTxStep tx bestHeight) st).1).count x =
        (sendIDs (rest.foldl (relevantTxStep tx bestHeight)
            (relevantTxStep tx bestHeight st ip)).2).count x +
          (regIDs (rest.foldl (relevantTxStep tx bestHeight)
            (relevantTxStep tx bestHeight st ip)).1).count x := rfl
      _ ≤ (sendIDs (relevantTxStep tx bestHeight st ip).2).count x +
          (regIDs (relevantTxStep tx bestHeight st ip).1).count x :=
        ih (relevantTxStep tx bestHeight st ip)
      _ ≤ (sendIDs st.2).count x + (regIDs st.1).count x :=
        relevantTxStep_count tx bestHeight ip st x

theorem runSpend_count_invariant (bestHeight : Int) (x : Nat) :
    ∀ (evs : List SpendEvent) (s : SpendState),
      (sendIDs (evs.foldl (spendStep bestHeight) s).log).count x +
        (regIDs (evs.foldl (spendStep bestHeight) s).reg).count x ≤
      (sendIDs s.log).count x + (regIDs s.reg).count x +
        (registerIDs evs).count x := by
  intro evs
  induction evs with
  | nil => intro s; simp [registerIDs]
  | cons ev rest ih =>
    intro s
    cases ev with
    | register op id =>
      have h1 := ih (spendStep bestHeight s (.register op id))
      have h2 := count_regIDs_insertSpend op id x s.reg
      have h3 : (registerIDs (SpendEvent.register op id :: rest)).count x =
          (registerIDs rest).count x + (if id = x then 1 else 0) := by
        simp only [registerIDs, List.count_cons]
        by_cases h : id = x
        · subst h; simp
        · have : ((x == id) : Bool) = false := by
            simp [Ne.symm h]
          simp [this, if_neg h]
      simp only [List.foldl_cons] at h1 ⊢
      simp only [spendStep] at h1 h2 ⊢
      rw [h3]
      omega
    | relevantTx tx =>
      have h1 := ih (spendStep bestHeight s (.relevantTx tx))
      have h2 := relevantTxFold_count tx bestHeight x tx.inputs.enum (s.reg, [])
      have h3 : (registerIDs (SpendEvent.relevantTx tx :: rest)).count x =
          (registerIDs rest).count x := rfl
      simp only [List.foldl_cons] at h1 ⊢
      rw [h3]
      simp only [spendStep, handleRelevantTx] at h1 ⊢
      simp only [sendIDs_append, List.count_append] at h1
      dsimp only at h2
      have h4 : (sendIDs ([] : List SpendSend)).count x = 0 := rfl
      rw [h4] at h2
      omega

theorem lookupOp_removeOp_self (op : Nat) :
    ∀ reg : SpendRegistry, lookupOp (removeOp reg op) op = none := by
  intro reg
  induction reg with
  | nil => rfl
  | cons p rest ih =>
    by_cases h : p.1 = op
    · simp only [removeOp, if_pos h]
      exact ih
    · simp only [removeOp, if_neg h, lookupOp, if_neg h]
      exact ih

theorem lookupOp_removeOp_none (op op2 : Nat) :
    ∀ reg : SpendRegistry, lookupOp reg op = none →
      lookupOp (removeOp reg op2) op = none := by
  intro reg
  induction reg with
  | nil => intro _; rfl
  | cons p rest ih =>
    intro h
    by_cases hp : p.1 = op
    · rw [lookupOp, if_pos hp] at h
      cases h
    · rw [lookupOp, if_neg hp] at h
      by_cases hq : p.1 = op2
      · simp only [removeOp, if_pos hq]
        exact ih h
      · simp only [removeOp, if_neg hq, lookupOp, if_neg hp]
        exact ih h

/-- Every send appended by one loop iteration satisfies any predicate
that holds of all details the iteration can build, and sends already
in the accumulator are kept verbatim. -/
theorem relevantTxFold_sends_pred (tx : RelevantTx) (bestHeight : Int)
    (P : SpendSend → Prop)
    (hP : ∀ (i op id : Nat),
      P ⟨id, ⟨op, tx.txHash, i,
        match tx.blockHeight with
        | some h => h
        | none => bestHeight + 1⟩, true⟩) :
    ∀ (inputs : List (Nat × Nat)) (st : SpendRegistry × List SpendSend),
      (∀ s ∈ st.2, P s) →
      ∀ s ∈ (inputs.foldl (relevantTxStep tx bestHeight) st).2, P s := by
  intro inputs
  induction inputs with
  | nil => intro st h; exact h
  | cons ip rest ih =>
    intro st h
    simp only [List.foldl_cons]
    apply ih
    unfold relevantTxStep
    cases hl : lookupOp st.1 ip.2 with
    | none => exact h
    | some clients =>
      intro s hs
      simp only [List.mem_append] at hs
      cases hs with
      | inl hs => exact h s hs
      | inr hs =>
        simp only [List.mem_map] at hs
        obtain ⟨id, _, rfl⟩ := hs
        exact hP ip.1 ip.2 id

/-- Every outpoint dispatched during the input loop is absent from the
registry the loop returns. -/
theorem relevantTxFold_absent (tx : RelevantTx) (bestHeight : Int) :
    ∀ (inputs : List (Nat × Nat)) (st : SpendRegistry × List SpendSend),
      (∀ s ∈ st.2, lookupOp st.1 s.detail.spentOutPoint = none) →
      ∀ s ∈ (inputs.foldl (relevantTxStep tx bestHeight) st).2,
        lookupOp (inputs.foldl (relevantTxStep tx bestHeight) st).1
          s.detail.spentOutPoint = none := by
  intro inputs
  induction inputs with
  | nil => intro st h; exact h
  | cons ip rest ih =>
    intro st h
    simp only [List.foldl_cons]
    apply ih
    unfold relevantTxStep
    cases hl : lookupOp st.1 ip.2 with
    | none => exact h
    | some clients =>
      intro s hs
      simp only [List.mem_append] at hs
      cases hs with
      | inl hs =>
        exact lookupOp_removeOp_none _ _ _ (h s hs)
      | inr hs =>
        simp only [List.mem_map] at hs
        obtain ⟨id, _, rfl⟩ := hs
        exact lookupOp_removeOp_self _ _

/-- The log only grows across a run, with new entries coming from
handleRelevantTx; this lifts a predicate preserved by every send to
the whole run log. -/
theorem runSpend_log_pred (bestHeight : Int) (P : SpendSend → Prop)
    (hstep : ∀ (reg : SpendRegistry) (tx : RelevantTx),
      ∀ s ∈ (handleRelevantTx reg tx bestHeight).2, P s) :
    ∀ (evs : List SpendEvent) (st : SpendState),
      (∀ s ∈ st.log, P s) →
      ∀ s ∈ (evs.foldl (spendStep bestHeight) st).log, P s := by
  intro evs
  induction evs with
  | nil => intro st h; exact h
  | cons ev rest ih =>
    intro st h
    simp only [List.foldl_cons]
    apply ih
    cases ev with
    | register op id => exact h
    | relevantTx tx =>
      intro s hs
      simp only [spendStep, List.mem_append] at hs
      cases hs with
      | inl hs => exact h s hs
      | inr hs => exact hstep st.reg tx s hs

/-- Claim C5: over any run of spend registrations (with the pairwise
distinct ids the atomic counter produces) and RelevantTx dispatches,
each spend id is sent at most one SpendDetail; every send closes the
channel immediately after; and handleRelevantTx removes a dispatched
outpoint from the registry in the same step, so it can no longer be
matched by any later RelevantTx. -/
theorem spend_at_most_once (bestHeight : Int) (evs : List SpendEvent)
    (hids : (registerIDs evs).Nodup) :
    (∀ id, (sendIDs (runSpend bestHeight evs).log).count id ≤ 1) ∧
    (∀ s ∈ (runSpend bestHeight evs).log, s.closedAfter = true) ∧
    (∀ (reg : SpendRegistry) (tx : RelevantTx),
      ∀ s ∈ (handleRelevantTx reg tx bestHeight).2,
        lookupOp (handleRelevantTx reg tx bestHeight).1
          s.detail.spentOutPoint = none) := by
  refine ⟨?_, ?_, ?_⟩
  · intro id
    have h1 := runSpend_count_invariant bestHeight id evs ⟨[], []⟩
    have h2 : (registerIDs evs).count id ≤ 1 :=
      List.nodup_iff_count_le_one.mp hids id
    have h3 : (sendIDs (⟨[], []⟩ : SpendState).log).count id = 0 := rfl
    have h4 : (regIDs (⟨[], []⟩ : SpendState).reg).count id = 0 := rfl
    unfold runSpend
    omega
  · have hstep : ∀ (reg : SpendRegistry) (tx : RelevantTx),
        ∀ s ∈ (handleRelevantTx reg tx bestHeight).2, s.closedAfter = true := by
      intro reg tx
      exact relevantTxFold_sends_pred tx bestHeight
        (fun s => s.closedAfter = true) (fun _ _ _ => rfl)
        tx.inputs.enum (reg, []) (by intro s hs; cases hs)
    exact runSpend_log_pred bestHeight _ hstep evs ⟨[], []⟩
      (by intro s hs; cases hs)
  · intro reg tx
    exact relevantTxFold_absent tx bestHeight tx.inputs.enum (reg, [])
      (by intro s hs; cases hs)

/-- A concrete spend run: one registration, then the same spending
transaction delivered twice. -/
def c5Evs : List SpendEvent :=
  [.register 5 1, .relevantTx ⟨9, [5], none⟩, .relevantTx ⟨9, [5], none⟩]

/-- Witness for spend_at_most_once at the concrete run. -/
theorem spend_at_most_once_witness :
    (registerIDs c5Evs).Nodup ∧
    ((∀ id, (sendIDs (runSpend 200 c5Evs).log).count id ≤ 1) ∧
    (∀ s ∈ (runSpend 200 c5Evs).log, s.closedAfter = true) ∧
    (∀ (reg : SpendRegistry) (tx : RelevantTx),
      ∀ s ∈ (handleRelevantTx reg tx 200).2,
        lookupOp (handleRelevantTx reg tx 200).1
          s.detail.spentOutPoint = none)) :=
  ⟨by decide, spend_at_most_once 200 c5Evs (by decide)⟩

/-- Claim C6: every SpendDetail sent by handleRelevantTx carries
spending height equal to the containing block height when the
transaction has a block, and best height + 1 when it was seen only in
the mempool. -/
theorem spend_height_mempool (reg : SpendRegistry) (tx : RelevantTx)
    (bestHeight : Int) :
    ∀ s ∈ (handleRelevantTx reg tx bestHeight).2,
      s.detail.spendingHeight =
        match tx.blockHeight with
        | some h => h
        | none => bestHeight + 1 :=
  relevantTxFold_sends_pred tx bestHeight
    (fun s => s.detail.spendingHeight =
      match tx.blockHeight with
      | some h => h
      | none => bestHeight + 1)
    (fun _ _ _ => rfl)
    tx.inputs.enum (reg, []) (by intro s hs; cases hs)

/-- Witness for spend_height_mempool: outpoint 5 registered to spend
id 1 at best height 200; a mempool RelevantTx spending it yields
spending height 201. -/
theorem spend_height_mempool_witness :
    ((⟨1, ⟨5, 9, 0, 201⟩, true⟩ : SpendSend) ∈
      (handleRelevantTx [(5, [1])] ⟨9, [5], none⟩ 200).2) ∧
    (⟨1, ⟨5, 9, 0, 201⟩, true⟩ : SpendSend).detail.spendingHeight = 201 :=
  ⟨by decide,
    spend_height_mempool [(5, [1])] ⟨9, [5], none⟩ 200
      ⟨1, ⟨5, 9, 0, 201⟩, true⟩ (by decide)⟩

/-- Claim C7 evaluation at the failing inputs: a first spendCancel of
(outpoint 5, spend id 3) succeeds but leaves the (now empty) outer
entry behind, so repeating the same cancel reaches
`close(outPointClients[3].spendChan)` with a nil registration and
panics; a spendCancel whose outpoint was never registered is a no-op;
an epochCancel for an id that was never registered dereferences the
nil registration at `reg.epochQueue.Stop()` and panics. -/
theorem cancel_unknown_id_panics :
    spendCancelHandler [(5, [3])] 5 3 = some [(5, [])] ∧
    spendCancelHandler [(5, [])] 5 3 = none ∧
    spendCancelHandler [] 5 3 = some [] ∧
    epochCancelHandler [] 7 = none := by decide

/-- Claim C8 counterexample: with the notifier running, a NotifySpent
failure is returned verbatim by RegisterSpendNtfn — an outcome that is
neither the event handle nor the shutdown error. -/
theorem register_spend_backend_error_counterexample :
    registerSpendNtfn false (some 3) (Except.ok true) none =
      RegisterResult.backendErr 3 ∧
    RegisterResult.backendErr 3 ≠ RegisterResult.handle ∧
    RegisterResult.backendErr 3 ≠ RegisterResult.shutdown := by decide

/-- Claim C8 as amended: after stop every Register* call fails with a
shutdown error and returns no handle; RegisterConfirmationsNtfn and
RegisterBlockEpochNtfn can only produce the handle or the shutdown
error, while RegisterSpendNtfn may additionally surface backend
errors. -/
theorem register_shutdown_amended (notifySpentErr : Option Nat)
    (getTxOutRes : Except Nat Bool) (historicalRescanErr : Option Nat)
    (stopped : Bool) :
    registerSpendNtfn true notifySpentErr getTxOutRes historicalRescanErr =
      RegisterResult.shutdown ∧
    registerConfirmationsNtfn true = RegisterResult.shutdown ∧
    registerBlockEpochNtfn true = RegisterResult.shutdown ∧
    (registerConfirmationsNtfn stopped = RegisterResult.handle ∨
      registerConfirmationsNtfn stopped = RegisterResult.shutdown) ∧
    (registerBlockEpochNtfn stopped = RegisterResult.handle ∨
      registerBlockEpochNtfn stopped = RegisterResult.shutdown) := by
  refine ⟨rfl, rfl, rfl, ?_, ?_⟩ <;> cases stopped <;>
    simp [registerConfirmationsNtfn, registerBlockEpochNtfn]

/-- Claim C9: the BlockConnected case assigns bestBlock the new
(height, hash) before invoking handleBlockConnected; when GetBlock or
ConnectTip fails the error is only returned for logging, no height is
recorded as connected and no epoch is fanned out, yet bestBlock stays
advanced at the new tip — the tip update is not rolled back and is not
atomic with the confirmation-state transition. -/
theorem tip_update_not_rolled_back (st : DispatcherState)
    (height hash : Int) (gbe cte : Option Nat) (e : Nat) :
    (blockConnectedUpdate st height hash gbe cte).1.bestBlock =
      ⟨height, hash⟩ ∧
    (blockConnectedUpdate st height hash (some e) cte).2 = some e ∧
    (blockConnectedUpdate st height hash (some e) cte).1.confConnectedHeights =
      st.confConnectedHeights ∧
    (blockConnectedUpdate st height hash (some e) cte).1.epochClients =
      st.epochClients ∧
    (blockConnectedUpdate st height hash none (some e)).2 = some e ∧
    (blockConnectedUpdate st height hash none (some e)).1.confConnectedHeights =
      st.confConnectedHeights ∧
    (blockConnectedUpdate st height hash none (some e)).1.epochClients =
      st.epochClients := by
  unfold blockConnectedUpdate handleBlockConnectedF
  cases gbe <;> cases cte <;> simp

/-- Claim C10 evaluation at the failing input: with the notifier best
block at height 5, the bitcoind and btcd debug accessors return 0, not
the best height; only the neutrino accessor returns the stored best
height. -/
theorem get_best_height_returns_zero :
    BitcoindNotifier.GetBestHeight ⟨5, 55⟩ = 0 ∧
    BtcdNotifier.GetBestHeight ⟨5, 55⟩ = 0 ∧
    NeutrinoNotifier.GetBestHeight 5 = 5 ∧
    BitcoindNotifier.GetBestHeight ⟨5, 55⟩ ≠ 5 := by decide
